import Mathlib

/-!
Verification of the Student Management System (Python sources under `src/`)
against its natural-language specification.

The embedding models:
- `file_operations.py`: collections are in-memory lists; `read_json`/`write_json`
  round-trip is the identity, so repository operations are modelled directly as
  list transformations, and writes are recorded as explicit events where a claim
  is about the write itself.
- `models/teacher.py`, `models/student.py`, `authentication.py`, `main.py`:
  translated function by function below.
Python exceptions are modelled with `Except`; the distinct error kinds named by
the spec (`DuplicateKey`, `InvalidFormat`, come out of Python `ValueError`s with
different messages) get distinct constructors.
-/

/-- Error kinds of the system (spec section 7).  In the Python source
`duplicateKey` and `invalidFormat` are both `ValueError` with different
messages; `zeroDivisionError` is Python's `ZeroDivisionError`. -/
inductive PyError
  | duplicateKey
  | invalidFormat
  | authenticationError
  | noMatchingName
  | zeroDivisionError
deriving DecidableEq, Repr

/-- A Python value stored in a record field (string or integer). -/
inductive PyVal
  | str (s : String)
  | int (n : Int)
deriving DecidableEq, Repr

/-- A stored teacher record, exactly the dict built by `Teacher.accept`
(`models/teacher.py` lines 74-81): keys `name`, `subject`, `id`, `address`,
`email`, `phone_number`.  Note the stored key for the teacher's id is `"id"`,
not `"teacher_id"`. -/
structure TeacherRec where
  name : String
  subject : String
  id : String
  address : String
  email : String
  phone_number : Int
deriving DecidableEq, Repr

/-- Python `dict.get` on a stored teacher record: `some` of the field value for
one of the six stored keys, `none` for any other key. -/
def TeacherRec.get (t : TeacherRec) (k : String) : Option PyVal :=
  if k = "name" then some (.str t.name)
  else if k = "subject" then some (.str t.subject)
  else if k = "id" then some (.str t.id)
  else if k = "address" then some (.str t.address)
  else if k = "email" then some (.str t.email)
  else if k = "phone_number" then some (.int t.phone_number)
  else none

/-- Python `==` between a `dict.get` result and a string: `None == s` and
`int == s` are `False`; two strings compare by value. -/
def pyEqStr (v : Option PyVal) (s : String) : Bool :=
  match v with
  | some (.str t) => t == s
  | _ => false

/-- A stored student record, exactly the dict built by `Student.accept`
(`models/student.py` lines 41-48).  `marks` is the insertion-ordered dict
mapping subject names to integer scores. -/
structure StudentRec where
  name : String
  roll_number : String
  email : String
  phone_number : Int
  marks : List (String × Int)
  address : String
deriving DecidableEq, Repr

namespace Student

/-- `Student.search` (`models/student.py` lines 87-105): linear scan, first
record whose `name` equals the query is returned; otherwise
`NoMatchingNameError` is raised. -/
def search : List StudentRec → String → Except PyError StudentRec
  | [], _ => .error .noMatchingName
  | e :: rest, name => if e.name == name then .ok e else search rest name

/-- `Student.delete` (`models/student.py` lines 108-118): keep exactly the
records whose `name` differs from the query, and write that list back. -/
def delete (data : List StudentRec) (name : String) : List StudentRec :=
  data.filter (fun e => e.name != name)

end Student

/-- `authenticate_teacher` (`authentication.py` lines 8-28): scan the teacher
collection; return `True` on the first record matching both `name` and `id`;
raise `AuthenticationError` if the scan finishes without a match. -/
def authenticate_teacher : List TeacherRec → String → String → Except PyError Bool
  | [], _, _ => .error .authenticationError
  | e :: rest, name, tid =>
    if e.name == name && e.id == tid then .ok true
    else authenticate_teacher rest name tid

/-- Number of digits in the decimal representation of a natural number
(`len(str(n))` for `n >= 0`): 1 for `n < 10`, else one more than for `n / 10`. -/
def numDigits (n : Nat) : Nat :=
  if h : n < 10 then 1 else numDigits (n / 10) + 1
termination_by n
decreasing_by exact Nat.div_lt_self (by omega) (by omega)

/-- Length of Python `str(n)` for an integer `n`: the digit count of `|n|`,
plus one for the leading minus sign when `n < 0`. -/
def pyStrLen (n : Int) : Nat :=
  if n < 0 then numDigits n.natAbs + 1 else numDigits n.natAbs

namespace Teacher

/-- `Teacher.validate_phone_number` (`models/teacher.py` lines 50-65):
`isinstance(phone_number, int) and len(str(phone_number)) == 10`.  The model's
domain is `Int`, so the `isinstance` conjunct always holds. -/
def validate_phone_number (n : Int) : Bool :=
  pyStrLen n == 10

end Teacher

theorem numDigits_pos (n : Nat) : 1 ≤ numDigits n := by
  rw [numDigits]
  split <;> omega

/-- The decimal representation of `m > 0` has `k + 1` digits exactly when
`10 ^ k ≤ m < 10 ^ (k + 1)`. -/
theorem numDigits_eq_iff (k : Nat) :
    ∀ m : Nat, 0 < m → (numDigits m = k + 1 ↔ 10 ^ k ≤ m ∧ m < 10 ^ (k + 1)) := by
  induction k with
  | zero =>
    intro m hm
    by_cases h : m < 10
    · rw [numDigits, dif_pos h]
      norm_num
      omega
    · rw [numDigits, dif_neg h]
      have := numDigits_pos (m / 10)
      norm_num
      omega
  | succ k ih =>
    intro m hm
    have hp1 : (10 : Nat) ^ (k + 1) = 10 ^ k * 10 := pow_succ 10 k
    have hp2 : (10 : Nat) ^ (k + 1 + 1) = 10 ^ (k + 1) * 10 := pow_succ 10 (k + 1)
    have h10 : (0 : Nat) < 10 ^ k := Nat.pos_pow_of_pos k (by omega)
    by_cases h : m < 10
    · rw [numDigits, dif_pos h]
      constructor
      · omega
      · rintro ⟨hle, -⟩
        omega
    · rw [numDigits, dif_neg h]
      have hdiv : 0 < m / 10 := Nat.div_pos (by omega) (by omega)
      have hiff := ih (m / 10) hdiv
      constructor
      · intro heq
        have hd : numDigits (m / 10) = k + 1 := by omega
        have := hiff.mp hd
        omega
      · intro hrange
        have hd : 10 ^ k ≤ m / 10 ∧ m / 10 < 10 ^ (k + 1) := by omega
        have := hiff.mpr hd
        omega

/-- C2 counterexample: `validate_phone_number` accepts `-123456789`, which is
not a 10-digit positive integer (its string form "-123456789" has length 10
but only 9 digits), so "accepts iff n is a 10-digit positive integer" is
false. -/
theorem validate_phone_number_accepts_negative :
    Teacher.validate_phone_number (-123456789) = true ∧
    ¬ (1000000000 ≤ (-123456789 : Int) ∧ (-123456789 : Int) < 10000000000) := by
  have h9 : numDigits 123456789 = 9 :=
    (numDigits_eq_iff 8 123456789 (by norm_num)).mpr (by norm_num)
  constructor
  · rw [Teacher.validate_phone_number, pyStrLen]
    norm_num [h9]
  · omega

/-- C2 amended: `validate_phone_number n` accepts exactly when `len(str(n))`
is 10, i.e. when `n` is a 10-digit positive integer or a negative integer with
9 digits (the minus sign counts towards the length of `str(n)`). -/
theorem validate_phone_number_iff (n : Int) :
    Teacher.validate_phone_number n = true ↔
      (1000000000 ≤ n ∧ n < 10000000000) ∨
      (-999999999 ≤ n ∧ n ≤ -100000000) := by
  rw [Teacher.validate_phone_number, beq_iff_eq, pyStrLen]
  rcases lt_trichotomy n 0 with hn | hn | hn
  · rw [if_pos hn]
    have h8 := numDigits_eq_iff 8 n.natAbs (by omega)
    norm_num at h8
    omega
  · subst hn
    have h1 : numDigits (0 : Int).natAbs = 1 := by
      rw [numDigits]
      norm_num
    rw [if_neg (by omega), h1]
    omega
  · rw [if_neg (by omega)]
    have h9 := numDigits_eq_iff 9 n.natAbs (by omega)
    norm_num at h9
    omega

/-- Part of the matcher for the regex `[^@]+@[^@]+\.[^@]+` used by
`Teacher.validate_email`: after at least one `[^@]` character of the middle
run has been consumed, match (with backtracking) the rest of
`[^@]+\.[^@]+` against a prefix of the input. -/
def matchRest : List Char → Bool
  | [] => false
  | c :: cs =>
    (c == '.' && (match cs with | [] => false | d :: _ => d != '@')) ||
    (c != '@' && matchRest cs)

/-- Matcher for `[^@]+\.[^@]+` against a prefix of the input. -/
def matchAfterAt : List Char → Bool
  | [] => false
  | c :: cs => c != '@' && matchRest cs

/-- Matcher continuation for the leading `[^@]+@` once at least one `[^@]`
character has been consumed: scan to the first `'@'` (the run cannot contain
one) and hand over to `matchAfterAt`. -/
def matchA : List Char → Bool
  | [] => false
  | c :: cs => if c == '@' then matchAfterAt cs else matchA cs

/-- Matcher for the whole regex `[^@]+@[^@]+\.[^@]+` against a prefix of the
input, as Python's `re.match` does: anchored at the start, not at the end. -/
def emailMatch : List Char → Bool
  | [] => false
  | c :: cs => if c == '@' then false else matchA cs

namespace Teacher

/-- `Teacher.validate_email` (`models/teacher.py` lines 33-48):
`re.match(r"[^@]+@[^@]+\.[^@]+", email)` — truthy iff the regex matches a
prefix of the string. -/
def validate_email (s : String) : Bool :=
  emailMatch s.data

end Teacher

/-- The shape the claim asserts for the WHOLE string: one or more non-@
characters, `'@'`, one or more non-@ characters, `'.'`, one or more non-@
characters — with nothing after. -/
def emailShapeWhole (s : List Char) : Prop :=
  ∃ a b c : List Char,
    s = a ++ '@' :: (b ++ '.' :: c) ∧
    a ≠ [] ∧ b ≠ [] ∧ c ≠ [] ∧
    (∀ x ∈ a, x ≠ '@') ∧ (∀ x ∈ b, x ≠ '@') ∧ (∀ x ∈ c, x ≠ '@')

theorem matchRest_iff (t : List Char) :
    matchRest t = true ↔
      ∃ b c rest, t = b ++ '.' :: c :: rest ∧ (∀ x ∈ b, x ≠ '@') ∧ c ≠ '@' := by
  induction t with
  | nil =>
    simp only [matchRest, Bool.false_eq_true, false_iff]
    rintro ⟨b, c, rest, h, -, -⟩
    exact absurd h (by simp)
  | cons ch cs ih =>
    constructor
    · intro h
      rcases Bool.or_eq_true_iff.mp h with h1 | h1
      · have hdot : ch = '.' := by
          have := (Bool.and_eq_true_iff.mp h1).1
          simpa using this
        have htl := (Bool.and_eq_true_iff.mp h1).2
        match cs, htl with
        | d :: ds, htl =>
          refine ⟨[], d, ds, by simp [hdot], by simp, ?_⟩
          simpa using htl
      · have hch : ch ≠ '@' := by
          have := (Bool.and_eq_true_iff.mp h1).1
          simpa using this
        rcases ih.mp (Bool.and_eq_true_iff.mp h1).2 with ⟨b, c, rest, he, hb, hc⟩
        exact ⟨ch :: b, c, rest, by simp [he], by
          intro x hx
          rcases List.mem_cons.mp hx with hx | hx
          · exact hx ▸ hch
          · exact hb x hx, hc⟩
    · rintro ⟨b, c, rest, he, hb, hc⟩
      match b, he with
      | [], he =>
        have h1 : ch = '.' ∧ cs = c :: rest := by
          constructor
          · exact (List.cons.injEq _ _ _ _ ▸ he).1
          · exact (List.cons.injEq _ _ _ _ ▸ he).2
        simp only [matchRest]
        apply Bool.or_eq_true_iff.mpr
        left
        rw [h1.2]
        simp [h1.1, hc]
      | b0 :: b', he =>
        have h1 : ch = b0 ∧ cs = b' ++ '.' :: c :: rest := by
          constructor
          · exact (List.cons.injEq _ _ _ _ ▸ he).1
          · exact (List.cons.injEq _ _ _ _ ▸ he).2
        simp only [matchRest]
        apply Bool.or_eq_true_iff.mpr
        right
        apply Bool.and_eq_true_iff.mpr
        refine ⟨?_, ih.mpr ⟨b', c, rest, h1.2, fun x hx => hb x (List.mem_cons_of_mem b0 hx), hc⟩⟩
        have : ch ≠ '@' := h1.1 ▸ hb b0 (List.mem_cons_self b0 b')
        simpa using this

theorem matchAfterAt_iff (t : List Char) :
    matchAfterAt t = true ↔
      ∃ b c rest, t = b ++ '.' :: c :: rest ∧ b ≠ [] ∧
        (∀ x ∈ b, x ≠ '@') ∧ c ≠ '@' := by
  cases t with
  | nil =>
    simp only [matchAfterAt, Bool.false_eq_true, false_iff]
    rintro ⟨b, c, rest, h, -, -, -⟩
    exact absurd h (by simp)
  | cons ch cs =>
    rw [matchAfterAt, Bool.and_eq_true_iff, matchRest_iff]
    constructor
    · rintro ⟨hch, b, c, rest, he, hb, hc⟩
      refine ⟨ch :: b, c, rest, by simp [he], by simp, ?_, hc⟩
      intro x hx
      rcases List.mem_cons.mp hx with hx | hx
      · subst hx
        simpa using hch
      · exact hb x hx
    · rintro ⟨b, c, rest, he, hbne, hb, hc⟩
      match b, he with
      | b0 :: b', he =>
        have h1 : ch = b0 ∧ cs = b' ++ '.' :: c :: rest := by
          constructor
          · exact (List.cons.injEq _ _ _ _ ▸ he).1
          · exact (List.cons.injEq _ _ _ _ ▸ he).2
        refine ⟨?_, b', c, rest, h1.2, fun x hx => hb x (List.mem_cons_of_mem b0 hx), hc⟩
        have : ch ≠ '@' := h1.1 ▸ hb b0 (List.mem_cons_self b0 b')
        simpa using this

theorem matchA_iff (t : List Char) :
    matchA t = true ↔
      ∃ a rest, t = a ++ '@' :: rest ∧ (∀ x ∈ a, x ≠ '@') ∧
        matchAfterAt rest = true := by
  induction t with
  | nil =>
    simp only [matchA, Bool.false_eq_true, false_iff]
    rintro ⟨a, rest, h, -, -⟩
    exact absurd h (by simp)
  | cons ch cs ih =>
    by_cases hch : ch = '@'
    · subst hch
      rw [matchA, if_pos (by simp)]
      constructor
      · intro h
        exact ⟨[], cs, by simp, by simp, h⟩
      · rintro ⟨a, rest, he, ha, hr⟩
        match a, he with
        | [], he =>
          have : cs = rest := (List.cons.injEq _ _ _ _ ▸ he).2
          exact this ▸ hr
        | a0 :: a', he =>
          have : '@' = a0 := (List.cons.injEq _ _ _ _ ▸ he).1
          exact absurd this.symm (ha a0 (List.mem_cons_self a0 a'))
    · rw [matchA, if_neg (by simpa using hch), ih]
      constructor
      · rintro ⟨a, rest, he, ha, hr⟩
        refine ⟨ch :: a, rest, by simp [he], ?_, hr⟩
        intro x hx
        rcases List.mem_cons.mp hx with hx | hx
        · exact hx ▸ hch
        · exact ha x hx
      · rintro ⟨a, rest, he, ha, hr⟩
        match a, he with
        | [], he =>
          have : ch = '@' := (List.cons.injEq _ _ _ _ ▸ he).1
          exact absurd this hch
        | a0 :: a', he =>
          have h1 : ch = a0 ∧ cs = a' ++ '@' :: rest := by
            constructor
            · exact (List.cons.injEq _ _ _ _ ▸ he).1
            · exact (List.cons.injEq _ _ _ _ ▸ he).2
          exact ⟨a', rest, h1.2, fun x hx => ha x (List.mem_cons_of_mem a0 hx), hr⟩

/-- C3 counterexample: `validate_email` accepts "a@b.c@d", although the whole
string does not have the claimed shape (everything after the `'@'` would have
to be free of `'@'`, but a second `'@'` occurs), because `re.match` only
anchors the pattern at the start of the string. -/
theorem validate_email_accepts_prefix_only :
    Teacher.validate_email "a@b.c@d" = true ∧
    ¬ emailShapeWhole ("a@b.c@d").data := by
  constructor
  · decide
  · rintro ⟨a, b, c, he, -, -, -, hna, hnb, hnc⟩
    have h2 : (("a@b.c@d").data).count '@' = 2 := by decide
    rw [he] at h2
    have h0a : a.count '@' = 0 :=
      List.count_eq_zero.mpr fun h => hna '@' h rfl
    have h0b : b.count '@' = 0 :=
      List.count_eq_zero.mpr fun h => hnb '@' h rfl
    have h0c : c.count '@' = 0 :=
      List.count_eq_zero.mpr fun h => hnc '@' h rfl
    simp [List.count_append, List.count_cons, h0a, h0b, h0c] at h2

/-- C3 amended: `validate_email` accepts exactly when some PREFIX of the
string matches "one or more non-@, `'@'`, one or more non-@, `'.'`, one
non-@ character": the string decomposes as `a ++ "@" ++ b ++ "." ++ c ++ rest`
with `a`, `b` nonempty and `'@'`-free and `c` a single non-@ character;
the tail `rest` is unconstrained because `re.match` does not anchor the end. -/
theorem validate_email_iff (s : String) :
    Teacher.validate_email s = true ↔
      ∃ a b c rest, s.data = a ++ '@' :: (b ++ '.' :: c :: rest) ∧
        a ≠ [] ∧ b ≠ [] ∧
        (∀ x ∈ a, x ≠ '@') ∧ (∀ x ∈ b, x ≠ '@') ∧ c ≠ '@' := by
  rw [Teacher.validate_email]
  cases hd : s.data with
  | nil =>
    simp only [emailMatch, Bool.false_eq_true, false_iff]
    rintro ⟨a, b, c, rest, he, -, -, -, -, -⟩
    exact absurd he (by simp)
  | cons ch cs =>
    by_cases hch : ch = '@'
    · subst hch
      simp only [emailMatch, if_pos (by rfl : ('@' == '@') = true),
        Bool.false_eq_true, false_iff]
      rintro ⟨a, b, c, rest, he, hane, -, hna, -, -⟩
      match a, he with
      | [], he =>
        exact hane rfl
      | a0 :: a', he =>
        have : '@' = a0 := (List.cons.injEq _ _ _ _ ▸ he).1
        exact absurd this.symm (hna a0 (List.mem_cons_self a0 a'))
    · rw [show emailMatch (ch :: cs) = matchA cs by
        simp [emailMatch, hch], matchA_iff]
      constructor
      · rintro ⟨a', rest', he, hna, hconc⟩
        rcases (matchAfterAt_iff rest').mp hconc with ⟨b, c, rest, hre, hbne, hnb, hc⟩
        refine ⟨ch :: a', b, c, rest, ?_, by simp, hbne, ?_, hnb, hc⟩
        · simp [he, hre]
        · intro x hx
          rcases List.mem_cons.mp hx with hx | hx
          · exact hx ▸ hch
          · exact hna x hx
      · rintro ⟨a, b, c, rest, he, hane, hbne, hna, hnb, hc⟩
        match a, he with
        | [], he =>
          exact absurd rfl hane
        | a0 :: a', he =>
          have h1 : cs = a' ++ '@' :: (b ++ '.' :: c :: rest) :=
            (List.cons.injEq _ _ _ _ ▸ he).2
          refine ⟨a', b ++ '.' :: c :: rest, h1,
            fun x hx => hna x (List.mem_cons_of_mem a0 hx), ?_⟩
          exact (matchAfterAt_iff _).mpr ⟨b, c, rest, rfl, hbne, hnb, hc⟩

/-- Round-half-to-even on a rational, as Python's `round` ties-to-even. -/
def roundHalfEven (q : ℚ) : ℤ :=
  let f := ⌊q⌋
  if q - f < 1 / 2 then f
  else if 1 / 2 < q - f then f + 1
  else if f % 2 = 0 then f else f + 1

/-- Python `round(x, 3)`: round to 3 decimal places, ties to even. -/
def round3 (q : ℚ) : ℚ :=
  (roundHalfEven (q * 1000) : ℚ) / 1000

/-- Result of `Student.calculate_percentage`: the sentinel string "-" or a
number. -/
inductive Percent
  | dash
  | num (q : ℚ)
deriving DecidableEq

/-- Result component of `Student.highest_and_lowest_scores`: the sentinel
string "-" or an integer total. -/
inductive PyScore
  | dash
  | score (n : Int)
deriving DecidableEq, Repr

/-- Sum of a student's marks (`sum(entry['marks'].values())`). -/
def totalMarks (e : StudentRec) : Int :=
  (e.marks.map Prod.snd).sum

namespace Student

/-- The passing test `all(mark >= 32 for mark in entry['marks'].values())`,
inlined in `pass_fail_determination`, `highest_and_lowest_scores` and
`calculate_rank` (`models/student.py` lines 134, 153, 205). -/
def passing (e : StudentRec) : Bool :=
  e.marks.all (fun m => decide (32 ≤ m.2))

/-- `Student.pass_fail_determination` (`models/student.py` lines 121-139):
collect `{'name', 'marks'}` for each student whose every mark is at least
32, preserving order. -/
def pass_fail_determination (data : List StudentRec) :
    List (String × List (String × Int)) :=
  (data.filter passing).map (fun e => (e.name, e.marks))

/-- `Student.highest_and_lowest_scores` (`models/student.py` lines 142-157):
among passing students, the max and min of the total marks; the sentinel pair
when no student passes. -/
def highest_and_lowest_scores (data : List StudentRec) : PyScore × PyScore :=
  match (data.filter passing).map totalMarks with
  | [] => (.dash, .dash)
  | t :: ts => (.score (ts.foldl max t), .score (ts.foldl min t))

/-- `Student.calculate_percentage` (`models/student.py` lines 160-173):
the sentinel if any mark is below 32, otherwise
`round((total / (len(marks) * 100)) * 100, 3)`.  When `marks` is empty the
`any` test is vacuously false and Python's division raises
`ZeroDivisionError`, modelled by the explicit zero test guarding the
division. -/
def calculate_percentage (marks : List (String × Int)) :
    Except PyError Percent :=
  let total : Int := (marks.map Prod.snd).sum
  if marks.any (fun m => decide (m.2 < 32)) then .ok .dash
  else if marks.length = 0 then .error .zeroDivisionError
  else .ok (.num (round3 (((total : ℚ) / ((marks.length : ℚ) * 100)) * 100)))

end Student

/-- The ordering used by `calculate_rank`'s
`sorted(passed_students, key=lambda x: sum(...), reverse=True)`:
`a` comes no later than `b` when `a`'s total is at least `b`'s. -/
def rankGE (a b : StudentRec) : Prop :=
  totalMarks b ≤ totalMarks a

instance : DecidableRel rankGE :=
  fun a b => inferInstanceAs (Decidable (totalMarks b ≤ totalMarks a))

instance : IsTotal StudentRec rankGE :=
  ⟨fun a b => le_total (totalMarks b) (totalMarks a)⟩

instance : IsTrans StudentRec rankGE :=
  ⟨fun _ _ _ h1 h2 => le_trans h2 h1⟩

/-- `for index, entry in enumerate(sorted_data): ranks.append((entry['name'],
index + 1))`: pair each record's name with its 1-based position, starting the
index at `i`. -/
def rankFrom (i : Nat) : List StudentRec → List (String × Nat)
  | [] => []
  | e :: rest => (e.name, i + 1) :: rankFrom (i + 1) rest

namespace Student

/-- `Student.calculate_rank` (`models/student.py` lines 194-210): filter to
passing students, stable-sort by total marks descending (`List.insertionSort`
with `rankGE` places a record before the first one with a strictly smaller or
equal total inserted later, matching Python's stable `sorted` with
`reverse=True`), then enumerate 1-based. -/
def calculate_rank (data : List StudentRec) : List (String × Nat) :=
  rankFrom 0 (List.insertionSort rankGE (data.filter passing))

end Student

theorem rankFrom_map_fst : ∀ (i : Nat) (l : List StudentRec),
    (rankFrom i l).map Prod.fst = l.map StudentRec.name
  | _, [] => rfl
  | i, e :: rest => by
    simp [rankFrom, rankFrom_map_fst (i + 1) rest]

theorem rankFrom_map_snd : ∀ (i : Nat) (l : List StudentRec),
    (rankFrom i l).map Prod.snd = List.range' (i + 1) l.length
  | _, [] => rfl
  | i, e :: rest => by
    simp [rankFrom, rankFrom_map_snd (i + 1) rest, List.range'_succ]

theorem mem_rankFrom : ∀ (i : Nat) (l : List StudentRec) (e : StudentRec),
    e ∈ l → ∃ r, (e.name, r) ∈ rankFrom i l
  | i, f :: rest, e, h => by
    rcases List.mem_cons.mp h with h | h
    · exact ⟨i + 1, by simp [rankFrom, h]⟩
    · obtain ⟨r, hr⟩ := mem_rankFrom (i + 1) rest e h
      exact ⟨r, List.mem_cons_of_mem _ hr⟩

/-- C9: `calculate_percentage` raises `ZeroDivisionError` exactly on an empty
marks mapping: the `any(mark < 32)` test is vacuously false there, the
division `total / (len(marks) * 100)` divides by zero, and for non-empty
marks the division is safe. -/
theorem calculate_percentage_zero_div_iff (marks : List (String × Int)) :
    Student.calculate_percentage marks = .error .zeroDivisionError ↔
      marks = [] := by
  constructor
  · intro h
    by_contra hne
    have hlen : marks.length ≠ 0 := fun h0 => hne (List.length_eq_zero.mp h0)
    by_cases ha : marks.any (fun m => decide (m.2 < 32)) = true
    · simp [Student.calculate_percentage, ha] at h
    · simp [Student.calculate_percentage, ha, hlen] at h
  · rintro rfl
    rfl

/-- C7 counterexample: on the empty marks mapping no mark is below 32, yet
`calculate_percentage` does not return the rounded percentage (nor the
sentinel) — it raises `ZeroDivisionError`. -/
theorem calculate_percentage_empty_not_value :
    (([] : List (String × Int)).any (fun m => decide (m.2 < 32)) = false) ∧
    Student.calculate_percentage [] = .error .zeroDivisionError ∧
    ∀ q : ℚ, Student.calculate_percentage [] ≠ .ok (.num q) := by
  refine ⟨rfl, rfl, fun q h => ?_⟩
  exact Except.noConfusion h

/-- C7 amended: for every NON-EMPTY marks mapping, `calculate_percentage`
returns the sentinel iff some mark is below 32, and otherwise returns
`round((total / (len * 100)) * 100, 3)`, which equals the mean mark as a
percentage rounded to 3 decimals; it depends only on this marks mapping. -/
theorem calculate_percentage_correct (marks : List (String × Int))
    (hne : marks ≠ []) :
    (Student.calculate_percentage marks = .ok .dash ↔
      ∃ m ∈ marks, m.2 < 32) ∧
    ((∀ m ∈ marks, 32 ≤ m.2) →
      Student.calculate_percentage marks =
        .ok (.num (round3 ((((marks.map Prod.snd).sum : Int) : ℚ) /
          (marks.length : ℚ))))) := by
  have hlen : marks.length ≠ 0 := fun h0 => hne (List.length_eq_zero.mp h0)
  have hlenQ : ((marks.length : ℚ)) ≠ 0 := Nat.cast_ne_zero.mpr hlen
  have hdiv : ((((marks.map Prod.snd).sum : Int) : ℚ) /
      ((marks.length : ℚ) * 100)) * 100
      = (((marks.map Prod.snd).sum : Int) : ℚ) / (marks.length : ℚ) := by
    field_simp
    ring
  constructor
  · by_cases ha : marks.any (fun m => decide (m.2 < 32)) = true
    · constructor
      · intro _
        simpa [List.any_eq_true] using ha
      · intro _
        simp [Student.calculate_percentage, ha]
    · constructor
      · intro h
        simp [Student.calculate_percentage, ha, hlen] at h
      · intro hex
        exact absurd (by simpa [List.any_eq_true] using hex) ha
  · intro hall
    have ha : marks.any (fun m => decide (m.2 < 32)) = false := by
      simp only [List.any_eq_false, decide_eq_true_eq]
      intro m hm
      exact not_lt.mpr (hall m hm)
    simp only [Student.calculate_percentage, ha, Bool.false_eq_true, if_false,
      hlen, if_neg hlen, hdiv]

/-- C8: `calculate_rank` restricts to passing students, sorts them by total
marks descending (some sorted permutation `s` of the passing students), pairs
each name with its 1-based position in `s`, and the assigned ranks are exactly
1, 2, ..., n — so students with equal totals get distinct consecutive ranks,
never a shared rank. -/
theorem calculate_rank_correct (data : List StudentRec) :
    ∃ s : List StudentRec,
      s.Perm (data.filter Student.passing) ∧
      List.Sorted rankGE s ∧
      Student.calculate_rank data = rankFrom 0 s ∧
      (Student.calculate_rank data).map Prod.fst = s.map StudentRec.name ∧
      (Student.calculate_rank data).map Prod.snd =
        List.range' 1 (data.filter Student.passing).length := by
  refine ⟨List.insertionSort rankGE (data.filter Student.passing),
    List.perm_insertionSort rankGE _, List.sorted_insertionSort rankGE _,
    rfl, ?_, ?_⟩
  · rw [Student.calculate_rank, rankFrom_map_fst]
  · rw [Student.calculate_rank, rankFrom_map_snd,
      (List.perm_insertionSort rankGE _).length_eq]

/-- C10: a student with an empty marks mapping passes the `all(mark >= 32)`
test vacuously, appears in `pass_fail_determination`, has total 0, contributes
a 0 to the totals considered by `highest_and_lowest_scores`, and receives a
rank in `calculate_rank`. -/
theorem empty_marks_student_passes (data : List StudentRec) (e : StudentRec)
    (he : e ∈ data) (hm : e.marks = []) :
    Student.passing e = true ∧
    (e.name, e.marks) ∈ Student.pass_fail_determination data ∧
    totalMarks e = 0 ∧
    (0 : Int) ∈ (data.filter Student.passing).map totalMarks ∧
    ∃ r, (e.name, r) ∈ Student.calculate_rank data := by
  have hp : Student.passing e = true := by simp [Student.passing, hm]
  have hf : e ∈ data.filter Student.passing := List.mem_filter.mpr ⟨he, hp⟩
  have ht : totalMarks e = 0 := by simp [totalMarks, hm]
  refine ⟨hp, List.mem_map.mpr ⟨e, hf, rfl⟩, ht,
    List.mem_map.mpr ⟨e, hf, ht⟩, ?_⟩
  have hs : e ∈ List.insertionSort rankGE (data.filter Student.passing) :=
    (List.perm_insertionSort rankGE _).mem_iff.mpr hf
  exact mem_rankFrom 0 _ e hs

/-- A concrete student with an empty marks mapping, used as the witness input
for the empty-marks claims. -/
def demoStudent : StudentRec :=
  ⟨"Zed", "r1", "z@x.y", 1234567890, [], "addr"⟩

/-- C10 witness: the empty-marks theorem applied to a concrete one-student
collection. -/
theorem empty_marks_student_passes_witness :
    demoStudent ∈ [demoStudent] ∧ demoStudent.marks = [] ∧
    (Student.passing demoStudent = true ∧
     (demoStudent.name, demoStudent.marks) ∈
       Student.pass_fail_determination [demoStudent] ∧
     totalMarks demoStudent = 0 ∧
     (0 : Int) ∈ ([demoStudent].filter Student.passing).map totalMarks ∧
     ∃ r, (demoStudent.name, r) ∈ Student.calculate_rank [demoStudent]) :=
  ⟨List.mem_cons_self _ _, rfl,
    empty_marks_student_passes [demoStudent] demoStudent
      (List.mem_cons_self _ _) rfl⟩

/-- A concrete non-empty passing marks mapping, used as the witness input for
the percentage claim. -/
def demoMarks : List (String × Int) := [("math", 40), ("science", 45)]

/-- C7 witness: the amended percentage theorem applied to a concrete
non-empty marks mapping. -/
theorem calculate_percentage_correct_witness :
    demoMarks ≠ [] ∧
    ((Student.calculate_percentage demoMarks = .ok .dash ↔
       ∃ m ∈ demoMarks, m.2 < 32) ∧
     ((∀ m ∈ demoMarks, 32 ≤ m.2) →
       Student.calculate_percentage demoMarks =
         .ok (.num (round3 ((((demoMarks.map Prod.snd).sum : Int) : ℚ) /
           (demoMarks.length : ℚ)))))) :=
  ⟨by decide, calculate_percentage_correct demoMarks (by decide)⟩

namespace Teacher

/-- `Teacher.delete` (`models/teacher.py` lines 139-149): keep exactly the
records whose `name` differs from the query, and write that list back. -/
def delete (data : List TeacherRec) (name : String) : List TeacherRec :=
  data.filter (fun e => e.name != name)

end Teacher

/-- `Teacher.__init__` (`models/teacher.py` lines 14-31): validates the email
and then the phone number (each raising `ValueError`, the spec's
`InvalidFormat`, on failure) and yields the record that `Teacher.accept`
stores. -/
def mkTeacher (name subject teacher_id address email : String) (phone : Int) :
    Except PyError TeacherRec :=
  if Teacher.validate_email email then
    if Teacher.validate_phone_number phone then
      .ok ⟨name, subject, teacher_id, address, email, phone⟩
    else .error .invalidFormat
  else .error .invalidFormat

/-- An observable action of one menu operation: an Authenticator check with
its outcome, or a write of a whole collection to disk. -/
inductive Event
  | auth (ok : Bool)
  | writeTeachers (data : List TeacherRec)
  | writeStudents (data : List StudentRec)
deriving DecidableEq, Repr

/-- Steps 3 onward of `add_new_teacher_from_user` (`main.py` lines 44-58):
the duplicate-ID test `any(teacher.get('teacher_id') == teacher_id ...)`
(a caught `ValueError`, so no write, when it fires), then `Teacher(...)`
validation (likewise no write on failure), then `accept`, which appends the
new record and writes the collection. -/
def add_new_teacher_body (teachers : List TeacherRec)
    (name subject teacher_id address email : String) (phone : Int) :
    List Event :=
  if teachers.any (fun t => pyEqStr (t.get "teacher_id") teacher_id) then []
  else
    match mkTeacher name subject teacher_id address email phone with
    | .error _ => []
    | .ok t => [.writeTeachers (teachers ++ [t])]

/-- `add_new_teacher_from_user` (`main.py` lines 23-60): when prior teacher
records exist the caller must authenticate (a failed check raises and nothing
is written); then the body runs. -/
def add_new_teacher_events (teachers : List TeacherRec)
    (authName authId : String)
    (name subject teacher_id address email : String) (phone : Int) :
    List Event :=
  if teachers.isEmpty then
    add_new_teacher_body teachers name subject teacher_id address email phone
  else
    match authenticate_teacher teachers authName authId with
    | .ok _ =>
      .auth true ::
        add_new_teacher_body teachers name subject teacher_id address email phone
    | .error _ => [.auth false]

/-- `add_new_student_from_user` (`main.py` lines 62-95): always authenticate
first; on success check roll-number uniqueness (a caught `ValueError`, no
write, when violated), then `Student(...).accept` appends and writes. -/
def add_new_student_events (students : List StudentRec)
    (teachers : List TeacherRec) (authName authId : String)
    (name roll_number email : String) (phone : Int)
    (marks : List (String × Int)) (address : String) : List Event :=
  match authenticate_teacher teachers authName authId with
  | .error _ => [.auth false]
  | .ok _ =>
    .auth true ::
      (if students.any (fun s => s.roll_number == roll_number) then []
       else [.writeStudents
         (students ++ [⟨name, roll_number, email, phone, marks, address⟩])])

/-- `delete_record` (`main.py` lines 148-174): `Teacher.delete` then
`Student.delete`, each of which always writes its filtered collection back;
no Authenticator check appears anywhere on this path. -/
def delete_record_events (teachers : List TeacherRec)
    (students : List StudentRec) (name : String) : List Event :=
  [.writeTeachers (Teacher.delete teachers name),
   .writeStudents (Student.delete students name)]

/-- Is this event an Authenticator check? -/
def isAuthEvent : Event → Bool
  | .auth _ => true
  | _ => false

/-- Scan a trace left to right, `seen` recording whether a successful
Authenticator check has occurred; every write must find `seen = true`. -/
def writesAuthedFrom : Bool → List Event → Bool
  | _, [] => true
  | seen, .auth ok :: rest => writesAuthedFrom (seen || ok) rest
  | seen, .writeTeachers _ :: rest => seen && writesAuthedFrom seen rest
  | seen, .writeStudents _ :: rest => seen && writesAuthedFrom seen rest

/-- Every write in the trace is preceded by a successful Authenticator
check. -/
def writesAuthed (tr : List Event) : Bool :=
  writesAuthedFrom false tr

theorem writesAuthedFrom_true : ∀ tr : List Event,
    writesAuthedFrom true tr = true
  | [] => rfl
  | .auth _ :: rest => writesAuthedFrom_true rest
  | .writeTeachers _ :: rest => by
    rw [writesAuthedFrom, writesAuthedFrom_true rest, Bool.and_self]
  | .writeStudents _ :: rest => by
    rw [writesAuthedFrom, writesAuthedFrom_true rest, Bool.and_self]

/-- A concrete stored teacher record. -/
def demoTeacher : TeacherRec :=
  ⟨"Alice", "Math", "T1", "addr", "a@b.c", 9876543210⟩

/-- The teacher record built from the C1 failing input: a different teacher
re-using the stored ID "T1". -/
def dupTeacher : TeacherRec :=
  ⟨"Bob", "Sci", "T1", "addr2", "b@c.d", 9123456789⟩

/-- C1 (bug evaluation): with a teacher with ID "T1" on disk, adding a new
teacher who also enters ID "T1" (after authenticating) does NOT fail with
DuplicateKey: the run appends the duplicate and writes the collection, which
then holds two records with ID "T1".  The root cause is the third conjunct:
the duplicate test reads key "teacher_id" from each stored record, but
records are stored under key "id" (`Teacher.accept`), so `dict.get` yields
`None` and the test is constantly false. -/
theorem duplicate_teacher_id_is_written :
    add_new_teacher_events [demoTeacher] "Alice" "T1"
      "Bob" "Sci" "T1" "addr2" "b@c.d" 9123456789
      = [Event.auth true, Event.writeTeachers [demoTeacher, dupTeacher]] ∧
    dupTeacher.id = demoTeacher.id ∧
    (∀ (teachers : List TeacherRec) (tid : String),
      teachers.any (fun t => pyEqStr (t.get "teacher_id") tid) = false) := by
  have hany : ∀ (teachers : List TeacherRec) (tid : String),
      teachers.any (fun t => pyEqStr (t.get "teacher_id") tid) = false := by
    intro teachers tid
    rw [List.any_eq_false]
    intro t ht
    rw [show t.get "teacher_id" = none from rfl]
    simp [pyEqStr]
  have h10 : numDigits 9123456789 = 10 :=
    (numDigits_eq_iff 9 9123456789 (by norm_num)).mpr (by norm_num)
  have hph : Teacher.validate_phone_number 9123456789 = true := by
    rw [Teacher.validate_phone_number, pyStrLen]
    norm_num [h10]
  have hem : Teacher.validate_email "b@c.d" = true := by decide
  have hmk : mkTeacher "Bob" "Sci" "T1" "addr2" "b@c.d" 9123456789
      = .ok dupTeacher := by
    rw [mkTeacher, hem, hph]
    rfl
  refine ⟨?_, rfl, hany⟩
  rw [add_new_teacher_events,
    show ([demoTeacher] : List TeacherRec).isEmpty = false from rfl,
    show authenticate_teacher [demoTeacher] "Alice" "T1" = .ok true from rfl]
  rw [if_neg (by simp), add_new_teacher_body, hany, if_neg (by simp), hmk]
  rfl

/-- C4 counterexample: with a prior teacher record present, `delete_record`
writes both collections back having performed no successful Authenticator
check. -/
theorem delete_record_writes_without_auth :
    ([demoTeacher] : List TeacherRec) ≠ [] ∧
    writesAuthed (delete_record_events [demoTeacher] [] "Alice") = false := by
  constructor
  · simp
  · rfl

/-- C4 amended: adding a teacher is write-gated by a successful Authenticator
check whenever prior teacher records exist, and adding a student always is;
but deleting a record performs no Authenticator check at all and always
writes both collections back. -/
theorem auth_gating_amended :
    (∀ (teachers : List TeacherRec) (an ai n sub tid ad em : String)
        (ph : Int), teachers ≠ [] →
      writesAuthed
        (add_new_teacher_events teachers an ai n sub tid ad em ph) = true) ∧
    (∀ (students : List StudentRec) (teachers : List TeacherRec)
        (an ai n roll em : String) (ph : Int)
        (marks : List (String × Int)) (ad : String),
      writesAuthed
        (add_new_student_events students teachers an ai n roll em ph marks ad)
        = true) ∧
    (∀ (teachers : List TeacherRec) (students : List StudentRec)
        (name : String),
      (∀ ev ∈ delete_record_events teachers students name,
        isAuthEvent ev = false) ∧
      ∃ d, Event.writeTeachers d ∈ delete_record_events teachers students name)
    := by
  refine ⟨?_, ?_, ?_⟩
  · intro teachers an ai n sub tid ad em ph hne
    rw [add_new_teacher_events]
    rw [if_neg (by simp [List.isEmpty_iff, hne])]
    cases hauth : authenticate_teacher teachers an ai with
    | ok b =>
      rw [writesAuthed, writesAuthedFrom, Bool.false_or]
      exact writesAuthedFrom_true _
    | error e => rfl
  · intro students teachers an ai n roll em ph marks ad
    rw [add_new_student_events]
    cases hauth : authenticate_teacher teachers an ai with
    | ok b =>
      rw [writesAuthed, writesAuthedFrom, Bool.false_or]
      exact writesAuthedFrom_true _
    | error e => rfl
  · intro teachers students name
    constructor
    · intro ev hev
      rcases List.mem_cons.mp hev with h | h
      · rw [h]
        rfl
      · rcases List.mem_cons.mp h with h | h
        · rw [h]
          rfl
        · exact absurd h (List.not_mem_nil ev)
    · exact ⟨Teacher.delete teachers name, List.mem_cons_self _ _⟩

/-- C4 witness: the amended gating theorem applied to a concrete add-teacher
run over a non-empty teacher collection. -/
theorem auth_gating_amended_witness :
    writesAuthed (add_new_teacher_events [demoTeacher] "Alice" "T1"
      "Bob" "Sci" "T9" "addr2" "b@c.d" 9123456789) = true :=
  auth_gating_amended.1 [demoTeacher] "Alice" "T1" "Bob" "Sci" "T9" "addr2"
    "b@c.d" 9123456789 (by simp)

/-- C5 helper: `Student.search` misses on a list with no matching name. -/
theorem search_eq_error_of_no_match (l : List StudentRec) (name : String)
    (h : ∀ e ∈ l, e.name ≠ name) :
    Student.search l name = .error .noMatchingName := by
  induction l with
  | nil => rfl
  | cons e rest ih =>
    have hne : e.name ≠ name := h e (List.mem_cons_self e rest)
    simp only [Student.search, beq_iff_eq, hne, if_false]
    exact ih fun x hx => h x (List.mem_cons_of_mem e hx)

/-- C5: `Student.delete` removes every record whose name equals the query (it
filters, so duplicates are all removed), and a subsequent `Student.search` for
the same name fails with `NoMatchingName`. -/
theorem delete_then_search_fails (data : List StudentRec) (name : String) :
    (∀ e ∈ Student.delete data name, e.name ≠ name) ∧
    Student.search (Student.delete data name) name = .error .noMatchingName := by
  have hmem : ∀ e ∈ Student.delete data name, e.name ≠ name := by
    intro e he
    have := List.of_mem_filter he
    simpa [bne_iff_ne] using this
  exact ⟨hmem, search_eq_error_of_no_match _ _ hmem⟩

/-- C6: `authenticate_teacher` returns `True` exactly when some stored record
matches both the claimed name and the claimed id (exact string equality), and
fails with `AuthenticationError` exactly when no such record exists. -/
theorem authenticate_iff (data : List TeacherRec) (name tid : String) :
    (authenticate_teacher data name tid = .ok true ↔
      ∃ e ∈ data, e.name = name ∧ e.id = tid) ∧
    (authenticate_teacher data name tid = .error .authenticationError ↔
      ¬ ∃ e ∈ data, e.name = name ∧ e.id = tid) := by
  induction data with
  | nil => simp [authenticate_teacher]
  | cons e rest ih =>
    by_cases h : e.name = name ∧ e.id = tid
    · simp [authenticate_teacher, h.1, h.2]
    · have hb : (e.name == name && e.id == tid) = false := by
        rcases not_and_or.mp h with h1 | h1 <;> simp [h1]
      simp only [authenticate_teacher, hb, Bool.false_eq_true, if_false, List.mem_cons]
      constructor
      · rw [ih.1]
        constructor
        · rintro ⟨x, hx, hxe⟩
          exact ⟨x, Or.inr hx, hxe⟩
        · rintro ⟨x, hx | hx, hxe⟩
          · exact absurd (hx ▸ hxe) h
          · exact ⟨x, hx, hxe⟩
      · rw [ih.2]
        constructor
        · rintro hno ⟨x, hx | hx, hxe⟩
          · exact absurd (hx ▸ hxe) h
          · exact hno ⟨x, hx, hxe⟩
        · rintro hno ⟨x, hx, hxe⟩
          exact hno ⟨x, Or.inr hx, hxe⟩
